import Mathlib

/-!
Verification of the task-ordering and completion-state engine of a to-do
web application backend.

The model is a shallow embedding of the Express route handlers
`POST /api/tasks` (create_task), `PATCH /api/tasks/:task_id` (update_task)
and `DELETE /api/tasks/:task_id` (delete_task), together with the zod
input schemas `createTaskInputSchema` and `updateTaskInputSchema`.
The database is a list of task rows and a list of category rows; each SQL
UPDATE with a WHERE clause is a map over the task list, SELECT/DELETE are
find/filter.  JavaScript peculiarities that matter are modelled explicitly:
the expression `maxOrderResult.rows[0].max || -1` treats both SQL NULL and
the number 0 as falsy (`jsFalsyOr`), and an UPDATE statement that assigns
the same column twice is rejected by PostgreSQL, which surfaces as a rolled
back transaction and a 500 response (`ApiErr.internal`).
-/

namespace TodoApp

/-- A row of the `tasks` table.  Timestamps are unix milliseconds
(BIGINT), `order_index` is INTEGER, nullable columns are `Option`. -/
structure Task where
  id : String
  user_id : String
  category_id : Option String
  title : String
  description : Option String
  due_date_at : Option Int
  priority : String
  is_completed : Bool
  completed_at : Option Int
  order_index : Int
  created_at : Int
  updated_at : Int
deriving Repr, DecidableEq

/-- A row of the `categories` table (only the columns the task handlers read). -/
structure Category where
  id : String
  user_id : String
  name : String
deriving Repr, DecidableEq

/-- The database state visible to the task handlers. -/
structure DB where
  tasks : List Task
  categories : List Category
deriving Repr, DecidableEq

/-- A JSON body for `POST /api/tasks`.  The outer `Option` is
presence/absence of the field, the inner `Option` (where present) is JSON
null versus a value. -/
structure CreateBody where
  category_id : Option (Option String) := none
  title : Option String := none
  description : Option (Option String) := none
  due_date_at : Option (Option Int) := none
  priority : Option String := none
  order_index : Option Int := none
deriving Repr, DecidableEq

/-- The result of `createTaskInputSchema.parse`: nullable-optional fields
are flattened the way the handler consumes them. -/
structure CreateInput where
  category_id : Option String
  title : String
  description : Option String
  due_date_at : Option Int
  priority : Option String
  order_index : Int
deriving Repr, DecidableEq

/-- The zod schema `createTaskInputSchema`: `title` required with length
1..255, `description` optional nullable with length at most 5000,
`priority` optional from the enum, `order_index` REQUIRED and
nonnegative. -/
def createTaskInputSchema (b : CreateBody) : Except String CreateInput :=
  match b.title, b.order_index with
  | none, _ => .error "Title is required"
  | _, none => .error "order_index is required"
  | some t, some oi =>
    if t.length < 1 || 255 < t.length then .error "Title length invalid"
    else if decide (oi < 0) then .error "order_index must be nonnegative"
    else if b.description.any (fun d => d.any (fun s => decide (5000 < s.length))) then
      .error "Description too long"
    else if b.priority.any (fun p => !(p == "low" || p == "medium" || p == "high")) then
      .error "Invalid priority"
    else .ok { category_id := b.category_id.join, title := t,
               description := b.description.join, due_date_at := b.due_date_at.join,
               priority := b.priority, order_index := oi }

/-- A JSON body for `PATCH /api/tasks/:task_id`; every field optional,
nullable ones doubly wrapped. -/
structure UpdateBody where
  category_id : Option (Option String) := none
  title : Option String := none
  description : Option (Option String) := none
  due_date_at : Option (Option Int) := none
  priority : Option String := none
  is_completed : Option Bool := none
  completed_at : Option (Option Int) := none
  order_index : Option Int := none
deriving Repr, DecidableEq

/-- The zod schema `updateTaskInputSchema`: validates the present fields
(`order_index`, when present, must be a nonnegative integer) and passes
the body through. -/
def updateTaskInputSchema (b : UpdateBody) : Except String UpdateBody :=
  if b.title.any (fun t => decide (t.length < 1) || decide (255 < t.length)) then
    .error "Title length invalid"
  else if b.description.any (fun d => d.any (fun s => decide (5000 < s.length))) then
    .error "Description too long"
  else if b.priority.any (fun p => !(p == "low" || p == "medium" || p == "high")) then
    .error "Invalid priority"
  else if b.order_index.any (fun i => decide (i < 0)) then
    .error "order_index must be nonnegative"
  else .ok b

/-- The error outcomes of the three handlers: zod failure (400
VALIDATION_FAILED), category ownership failure (400 CATEGORY_NOT_FOUND),
missing task (404), the two explicit order_index 400 branches of the PATCH
handler, and a database error rolled back to a 500. -/
inductive ApiErr where
  | validationFailed
  | categoryNotFound
  | notFound
  | negativeIndex
  | outOfBounds
  | internal
deriving Repr, DecidableEq

/-- SELECT 1 FROM categories WHERE id = cid AND user_id = uid. -/
def categoryExists (db : DB) (uid cid : String) : Bool :=
  db.categories.any (fun c => c.id == cid && c.user_id == uid)

/-- The user's incomplete tasks: WHERE user_id = uid AND is_completed = FALSE. -/
def activeTasks (db : DB) (uid : String) : List Task :=
  db.tasks.filter (fun t => t.user_id == uid && !t.is_completed)

/-- The multiset of `order_index` values of the user's incomplete tasks. -/
def activeIndices (db : DB) (uid : String) : List Int :=
  (activeTasks db uid).map Task.order_index

/-- SELECT MAX(order_index) FROM tasks WHERE user_id = uid AND
is_completed = FALSE — NULL (`none`) on an empty set. -/
def sqlMaxActive (db : DB) (uid : String) : Option Int :=
  (activeIndices db uid).max?

/-- JavaScript `x || d` applied to a SQL MAX result: both `null` and the
number `0` are falsy, so they fall through to the default. -/
def jsFalsyOr (x : Option Int) (d : Int) : Int :=
  match x with
  | none => d
  | some v => if v == 0 then d else v

/-- UPDATE tasks SET order_index = order_index + 1 WHERE user_id = uid AND
is_completed = FALSE, applied to one row (the shift of the create handler). -/
def createShift (uid : String) (t : Task) : Task :=
  if t.user_id == uid && !t.is_completed then
    { t with order_index := t.order_index + 1 } else t

/-- UPDATE tasks SET order_index = order_index - 1 WHERE user_id = uid AND
is_completed = FALSE AND order_index > i, applied to one row (the
compaction shift of the delete handler). -/
def deleteShift (uid : String) (i : Int) (t : Task) : Task :=
  if t.user_id == uid && !t.is_completed && decide (i < t.order_index) then
    { t with order_index := t.order_index - 1 } else t

/-- The handler of POST /api/tasks: parse the body (ignoring the parsed
`order_index`), check category ownership, shift every incomplete task of
the user up by one, and insert the new row at order_index 0 with
is_completed FALSE and completed_at NULL. -/
def create_task (db : DB) (uid : String) (body : CreateBody) (newId : String) (now : Int) :
    Except ApiErr (DB × Task) :=
  match createTaskInputSchema body with
  | .error _ => .error .validationFailed
  | .ok inp =>
    if inp.category_id.any (fun c => c != "") && !categoryExists db uid (inp.category_id.getD "") then
      .error .categoryNotFound
    else
      let shifted := db.tasks.map (createShift uid)
      let newTask : Task := {
        id := newId, user_id := uid, category_id := inp.category_id,
        title := inp.title,
        description := match inp.description with
          | some s => if s == "" then none else some s
          | none => none,
        due_date_at := inp.due_date_at,
        priority := inp.priority.getD "medium",
        is_completed := false, completed_at := none,
        order_index := 0, created_at := now, updated_at := now }
      .ok ({ db with tasks := shifted ++ [newTask] }, newTask)

/-- The accumulated SET clause of the final UPDATE of the PATCH handler.
`order_index_sets` records every push of an `order_index = $k` assignment,
because the uncomplete branch and the reorder branch can each push one. -/
structure SetClause where
  title : Option String := none
  description : Option (Option String) := none
  due_date_at : Option (Option Int) := none
  priority : Option String := none
  is_completed : Option Bool := none
  completed_at : Option (Option Int) := none
  category_id : Option (Option String) := none
  order_index_sets : List Int := []
deriving Repr, DecidableEq

/-- Apply the SET clause to one row (the rows matched by
WHERE id = task_id AND user_id = uid); `updated_at` is always set. -/
def applySet (sc : SetClause) (now : Int) (t : Task) : Task :=
  { t with
    title := sc.title.getD t.title,
    description := sc.description.getD t.description,
    due_date_at := sc.due_date_at.getD t.due_date_at,
    priority := sc.priority.getD t.priority,
    is_completed := sc.is_completed.getD t.is_completed,
    completed_at := sc.completed_at.getD t.completed_at,
    category_id := sc.category_id.getD t.category_id,
    order_index := sc.order_index_sets.head?.getD t.order_index,
    updated_at := now }

/-- Execute the final UPDATE of the PATCH handler on the (possibly already
range-shifted) task list.  When the SET clause assigns `order_index`
twice — which happens when an uncomplete and an explicit reorder occur in
the same request — PostgreSQL rejects the statement, the transaction rolls
back, and the handler answers 500. -/
def finalizeUpdate (db : DB) (uid task_id : String) (currentTask : Task)
    (sc : SetClause) (tasks : List Task) (now : Int) : Except ApiErr (DB × Task) :=
  if decide (2 ≤ sc.order_index_sets.length) then .error .internal
  else
    .ok ({ db with tasks := tasks.map (fun t =>
            if t.id == task_id && t.user_id == uid then applySet sc now t else t) },
         applySet sc now currentTask)

/-- The handler of PATCH /api/tasks/:task_id: parse, load the current row,
validate category ownership, build the SET clause (completion transitions
manage `completed_at` and, on uncomplete, assign
`(max || -1) + 1` as the new order_index), run the range-shift UPDATEs
for an in-bounds reorder of a task that is and remains incomplete, and
execute the final UPDATE. -/
def update_task (db : DB) (uid : String) (task_id : String) (body : UpdateBody) (now : Int) :
    Except ApiErr (DB × Task) :=
  match updateTaskInputSchema body with
  | .error _ => .error .validationFailed
  | .ok uf =>
    match db.tasks.find? (fun t => t.id == task_id && t.user_id == uid) with
    | none => .error .notFound
    | some currentTask =>
      if uf.category_id.any (fun c => c.any (fun cid => !categoryExists db uid cid)) then
        .error .categoryNotFound
      else
        let sc1 : SetClause := { title := uf.title, description := uf.description,
                                 due_date_at := uf.due_date_at, priority := uf.priority }
        let sc2 : SetClause :=
          match uf.is_completed with
          | none => sc1
          | some newC =>
            let oldC := currentTask.is_completed
            let sc := { sc1 with is_completed := some newC }
            if newC && !oldC then
              { sc with completed_at := some (some now) }
            else if !newC && oldC then
              { sc with completed_at := some none,
                        order_index_sets :=
                          sc.order_index_sets ++ [jsFalsyOr (sqlMaxActive db uid) (-1) + 1] }
            else if !newC && !oldC then
              { sc with completed_at := some none }
            else sc
        let scFinal := fun (sc : SetClause) => { sc with category_id := uf.category_id }
        match uf.order_index with
        | some newIndex =>
          if newIndex != currentTask.order_index &&
             (uf.is_completed == some false ||
              (uf.is_completed == none && !currentTask.is_completed)) then
            if decide (newIndex < 0) then .error .negativeIndex
            else
              let maxOrderIndex := jsFalsyOr (sqlMaxActive db uid) (-1)
              if decide (maxOrderIndex + 1 < newIndex) then .error .outOfBounds
              else
                let oldIndex := currentTask.order_index
                let shifted :=
                  if decide (newIndex < oldIndex) then
                    db.tasks.map (fun t =>
                      if t.user_id == uid && !t.is_completed &&
                         decide (newIndex ≤ t.order_index) && decide (t.order_index < oldIndex) &&
                         t.id != task_id then
                        { t with order_index := t.order_index + 1 } else t)
                  else
                    db.tasks.map (fun t =>
                      if t.user_id == uid && !t.is_completed &&
                         decide (oldIndex < t.order_index) && decide (t.order_index ≤ newIndex) &&
                         t.id != task_id then
                        { t with order_index := t.order_index - 1 } else t)
                finalizeUpdate db uid task_id currentTask
                  (scFinal { sc2 with order_index_sets := sc2.order_index_sets ++ [newIndex] })
                  shifted now
          else
            finalizeUpdate db uid task_id currentTask (scFinal sc2) db.tasks now
        | none =>
          finalizeUpdate db uid task_id currentTask (scFinal sc2) db.tasks now

/-- The handler of DELETE /api/tasks/:task_id: load the row (404 when
absent), delete it, and, only when the deleted task was incomplete,
decrement the order_index of the user's incomplete tasks above it. -/
def delete_task (db : DB) (uid : String) (task_id : String) : Except ApiErr DB :=
  match db.tasks.find? (fun t => t.id == task_id && t.user_id == uid) with
  | none => .error .notFound
  | some taskToDelete =>
    let removed := db.tasks.filter (fun t => !(t.id == task_id && t.user_id == uid))
    let final :=
      if taskToDelete.is_completed then removed
      else removed.map (deleteShift uid taskToDelete.order_index)
    .ok { db with tasks := final }
/-- The dense range 0, 1, ..., n-1 as integers. -/
def rangeInt (n : Nat) : List Int :=
  (List.range n).map Int.ofNat

/-- Invariant I1 for one user: the multiset of order_index values of the
user's incomplete tasks is exactly 0..N-1, no duplicates, no gaps. -/
def denseActive (db : DB) (uid : String) : Prop :=
  (activeIndices db uid).Perm (rangeInt (activeIndices db uid).length)

/-- Executable test for density of a list of integers. -/
def isDenseRange (l : List Int) : Bool :=
  decide l.Nodup && (List.range l.length).all (fun k => decide (Int.ofNat k ∈ l))

lemma mem_rangeInt {n : Nat} {x : Int} : x ∈ rangeInt n ↔ 0 ≤ x ∧ x < (n : Int) := by
  simp only [rangeInt, List.mem_map, List.mem_range, Int.ofNat_eq_natCast]
  constructor
  · rintro ⟨k, hk, rfl⟩
    omega
  · rintro ⟨h0, hn⟩
    exact ⟨x.toNat, by omega, by omega⟩

lemma rangeInt_nodup (n : Nat) : (rangeInt n).Nodup := by
  refine List.Nodup.map ?_ (List.nodup_range n)
  intro a b hab
  exact Int.ofNat.inj hab

lemma rangeInt_length (n : Nat) : (rangeInt n).length = n := by
  simp [rangeInt]

lemma isDenseRange_iff (l : List Int) : isDenseRange l = true ↔ l.Perm (rangeInt l.length) := by
  constructor
  · intro h
    simp only [isDenseRange, Bool.and_eq_true, decide_eq_true_eq, List.all_eq_true,
      List.mem_range, Int.ofNat_eq_natCast] at h
    obtain ⟨hnd, hsub⟩ := h
    have hsub2 : rangeInt l.length ⊆ l := by
      intro x hx
      rw [mem_rangeInt] at hx
      have hmem := hsub x.toNat (by omega)
      have hx2 : ((x.toNat : Nat) : Int) = x := by omega
      rwa [hx2] at hmem
    have hsp : List.Subperm (rangeInt l.length) l := (rangeInt_nodup _).subperm hsub2
    exact (hsp.perm_of_length_le (by rw [rangeInt_length])).symm
  · intro h
    have hnd : l.Nodup := h.nodup_iff.mpr (rangeInt_nodup _)
    simp only [isDenseRange, Bool.and_eq_true, decide_eq_true_eq, List.all_eq_true,
      List.mem_range, Int.ofNat_eq_natCast]
    refine ⟨hnd, fun k hk => ?_⟩
    apply h.mem_iff.mpr
    rw [mem_rangeInt]
    constructor <;> omega

instance (db : DB) (uid : String) : Decidable (denseActive db uid) :=
  decidable_of_iff (isDenseRange (activeIndices db uid) = true)
    (isDenseRange_iff (activeIndices db uid))

lemma rangeInt_succ (n : Nat) : rangeInt (n + 1) = 0 :: (rangeInt n).map (fun j => j + 1) := by
  simp only [rangeInt, List.range_succ_eq_map, List.map_cons, List.map_map,
    Int.ofNat_eq_natCast, Nat.cast_zero]
  refine congrArg _ (List.map_congr_left fun k _ => ?_)
  simp only [Function.comp_apply, Int.ofNat_eq_natCast]
  push_cast
  ring

/-- Filtering the active tasks of a user commutes with a row-map that
leaves `user_id` and `is_completed` untouched. -/
lemma activeTasks_map (l : List Task) (cats : List Category) (uid : String) (f : Task → Task)
    (hu : ∀ t, (f t).user_id = t.user_id) (hc : ∀ t, (f t).is_completed = t.is_completed) :
    activeTasks ⟨l.map f, cats⟩ uid = (activeTasks ⟨l, cats⟩ uid).map f := by
  simp only [activeTasks, List.filter_map]
  refine congrArg _ (List.filter_congr fun t _ => ?_)
  simp only [Function.comp_apply, hu, hc]

lemma createShift_user (uid : String) (t : Task) : (createShift uid t).user_id = t.user_id := by
  unfold createShift
  split <;> rfl

lemma createShift_completed (uid : String) (t : Task) :
    (createShift uid t).is_completed = t.is_completed := by
  unfold createShift
  split <;> rfl

lemma deleteShift_user (uid : String) (i : Int) (t : Task) :
    (deleteShift uid i t).user_id = t.user_id := by
  unfold deleteShift
  split <;> rfl

lemma deleteShift_completed (uid : String) (i : Int) (t : Task) :
    (deleteShift uid i t).is_completed = t.is_completed := by
  unfold deleteShift
  split <;> rfl

lemma activeIndices_map_createShift (l : List Task) (cats : List Category) (uid : String) :
    activeIndices ⟨l.map (createShift uid), cats⟩ uid
      = (activeIndices ⟨l, cats⟩ uid).map (fun j => j + 1) := by
  unfold activeIndices
  rw [activeTasks_map l cats uid _ (createShift_user uid) (createShift_completed uid),
    List.map_map, List.map_map]
  refine List.map_congr_left fun t ht => ?_
  have hp := (List.mem_filter.mp ht).2
  rw [Bool.and_eq_true] at hp
  simp only [Function.comp_apply, createShift, hp.1, hp.2, Bool.and_self, if_true]

lemma activeIndices_map_deleteShift (l : List Task) (cats : List Category) (uid : String)
    (i : Int) :
    activeIndices ⟨l.map (deleteShift uid i), cats⟩ uid
      = (activeIndices ⟨l, cats⟩ uid).map (fun j => if i < j then j - 1 else j) := by
  unfold activeIndices
  rw [activeTasks_map l cats uid _ (deleteShift_user uid i) (deleteShift_completed uid i),
    List.map_map, List.map_map]
  refine List.map_congr_left fun t ht => ?_
  have hp := (List.mem_filter.mp ht).2
  rw [Bool.and_eq_true] at hp
  simp only [Function.comp_apply, deleteShift, hp.1, hp.2, Bool.true_and]
  by_cases hlt : i < t.order_index
  · simp [hlt]
  · simp [hlt]

/-- A task list with unique ids is, up to permutation, the row returned by
`find?` plus the rows surviving the delete filter. -/
lemma perm_cons_filter_of_find (l : List Task) (tid uid : String) (td : Task)
    (hnd : (l.map Task.id).Nodup)
    (hf : l.find? (fun t => t.id == tid && t.user_id == uid) = some td) :
    l.Perm (td :: l.filter (fun t => !(t.id == tid && t.user_id == uid))) := by
  induction l with
  | nil => simp at hf
  | cons t ts ih =>
    rw [List.map_cons, List.nodup_cons] at hnd
    by_cases hp : (t.id == tid && t.user_id == uid) = true
    · rw [List.find?_cons_of_pos ts hp] at hf
      injection hf with hf
      subst hf
      have hts : ts.filter (fun t => !(t.id == tid && t.user_id == uid)) = ts := by
        rw [List.filter_eq_self]
        intro x hx
        have hxid : ¬(x.id = tid) := by
          rw [Bool.and_eq_true, beq_iff_eq, beq_iff_eq] at hp
          rw [← hp.1]
          intro hteq
          exact hnd.1 (List.mem_map.mpr ⟨x, hx, hteq⟩)
        simp [hxid]
      rw [List.filter_cons_of_neg (by simp [hp]), hts]
    · rw [List.find?_cons_of_neg ts hp] at hf
      have hperm := ih hnd.2 hf
      have hpb : (t.id == tid && t.user_id == uid) = false := by
        rcases Bool.eq_false_or_eq_true (t.id == tid && t.user_id == uid) with hc | hc
        · exact absurd hc hp
        · exact hc
      rw [List.filter_cons_of_pos (by simp [hpb])]
      exact (hperm.cons t).trans (List.Perm.swap td t _)

/-- Compaction: removing the element `i` from the dense range 0..n-1 and
shifting every index above `i` down by one yields the dense range 0..n-2. -/
lemma compact_perm {i : Int} {m : List Int} {n : Nat}
    (h : (i :: m).Perm (rangeInt n)) :
    (m.map (fun j => if i < j then j - 1 else j)).Perm (rangeInt (n - 1)) := by
  have hnd : (i :: m).Nodup := h.nodup_iff.mpr (rangeInt_nodup n)
  rw [List.nodup_cons] at hnd
  have hmem : ∀ x, x ∈ i :: m ↔ 0 ≤ x ∧ x < (n : Int) := by
    intro x
    rw [h.mem_iff, mem_rangeInt]
  have hi : 0 ≤ i ∧ i < (n : Int) := (hmem i).mp (List.mem_cons_self i m)
  have hmm : ∀ x ∈ m, 0 ≤ x ∧ x < (n : Int) ∧ x ≠ i := by
    intro x hx
    have hx2 := (hmem x).mp (List.mem_cons_of_mem i hx)
    exact ⟨hx2.1, hx2.2, fun hxi => hnd.1 (hxi ▸ hx)⟩
  have hmm2 : ∀ x : Int, 0 ≤ x → x < (n : Int) → x ≠ i → x ∈ m := by
    intro x h0 hn hxi
    rcases List.mem_cons.mp ((hmem x).mpr ⟨h0, hn⟩) with hc | hc
    · exact absurd hc hxi
    · exact hc
  refine List.perm_of_nodup_nodup_toFinset_eq ?_ (rangeInt_nodup _) (List.toFinset.ext ?_)
  · refine List.Nodup.map_on ?_ hnd.2
    intro x hx y hy hxy
    rcases hmm x hx with ⟨hx0, hxn, hxi⟩
    rcases hmm y hy with ⟨hy0, hyn, hyi⟩
    by_cases h1 : i < x <;> by_cases h2 : i < y <;>
      simp only [h1, h2, if_true, if_false] at hxy <;> omega
  · intro x
    rw [List.mem_map, mem_rangeInt]
    constructor
    · rintro ⟨j, hj, rfl⟩
      rcases hmm j hj with ⟨hj0, hjn, hji⟩
      by_cases h1 : i < j <;> simp only [h1, if_true, if_false] <;>
        constructor <;> omega
    · rintro ⟨h0, h1⟩
      by_cases hx : x < i
      · refine ⟨x, hmm2 x h0 (by omega) (by omega), ?_⟩
        rw [if_neg (by omega)]
      · refine ⟨x + 1, hmm2 (x + 1) (by omega) (by omega) (by omega), ?_⟩
        rw [if_pos (by omega)]
        omega

/-- A task row with the given id, owner, index and completion state; the
remaining columns get fixed innocuous values. -/
def mkTask (id uid : String) (idx : Int) (c : Bool) (cAt : Option Int) : Task :=
  { id := id, user_id := uid, category_id := none, title := "t", description := none,
    due_date_at := none, priority := "medium", is_completed := c, completed_at := cAt,
    order_index := idx, created_at := 0, updated_at := 0 }

/-- Inserting a fresh active row at index 0 after the create shift
preserves density of the user's active indices. -/
lemma dense_insert_top (l : List Task) (cats : List Category) (uid : String) (nt : Task)
    (hu : nt.user_id = uid) (hc : nt.is_completed = false) (ho : nt.order_index = 0)
    (hd : denseActive ⟨l, cats⟩ uid) :
    denseActive ⟨l.map (createShift uid) ++ [nt], cats⟩ uid := by
  unfold denseActive at *
  have h1 : activeIndices ⟨l.map (createShift uid) ++ [nt], cats⟩ uid
      = activeIndices ⟨l.map (createShift uid), cats⟩ uid ++ [nt.order_index] := by
    simp [activeIndices, activeTasks, List.filter_append, hu, hc]
  rw [h1, activeIndices_map_createShift, ho]
  have hL : (((activeIndices ⟨l, cats⟩ uid).map (fun j => j + 1)) ++ [(0 : Int)]).length
      = (activeIndices ⟨l, cats⟩ uid).length + 1 := by
    simp
  rw [hL]
  refine (List.perm_append_singleton _ _).trans ?_
  rw [rangeInt_succ]
  exact (hd.map _).cons 0

/-- Deleting a found row preserves density of the user's active indices:
a completed row leaves them untouched, an active row is compacted away. -/
lemma dense_delete (db : DB) (uid tid : String) (db2 : DB)
    (hnd : (db.tasks.map Task.id).Nodup) (hd : denseActive db uid)
    (h : delete_task db uid tid = Except.ok db2) : denseActive db2 uid := by
  simp only [delete_task] at h
  split at h
  · exact absurd h (by simp)
  next td hf =>
    have hperm := perm_cons_filter_of_find db.tasks tid uid td hnd hf
    set removed := db.tasks.filter (fun t => !(t.id == tid && t.user_id == uid)) with hrem
    rw [Except.ok.injEq] at h
    by_cases hcomp : td.is_completed
    · rw [if_pos hcomp] at h
      subst h
      have hfperm : (activeIndices db uid).Perm (activeIndices ⟨removed, db.categories⟩ uid) := by
        unfold activeIndices activeTasks
        refine List.Perm.map _ ?_
        have := hperm.filter (fun t => t.user_id == uid && !t.is_completed)
        rwa [List.filter_cons_of_neg (by simp [hcomp])] at this
      unfold denseActive at *
      have hlen : (activeIndices ⟨removed, db.categories⟩ uid).length
          = (activeIndices db uid).length := (hfperm.length_eq).symm
      have : (activeIndices ⟨removed, db.categories⟩ uid).Perm
          (rangeInt (activeIndices db uid).length) :=
        hfperm.symm.trans hd
      rw [hlen]
      exact this
    · rw [if_neg hcomp] at h
      subst h
      have hfperm : (activeIndices db uid).Perm
          (td.order_index :: activeIndices ⟨removed, db.categories⟩ uid) := by
        unfold activeIndices activeTasks
        have := hperm.filter (fun t => t.user_id == uid && !t.is_completed)
        rw [List.filter_cons_of_pos] at this
        · exact (this.map Task.order_index)
        · have hfound := List.find?_some hf
          rw [Bool.and_eq_true] at hfound
          simp [hfound.2, hcomp]
      unfold denseActive at *
      have hchain : (td.order_index :: activeIndices ⟨removed, db.categories⟩ uid).Perm
          (rangeInt (activeIndices db uid).length) := hfperm.symm.trans hd
      have hcp := compact_perm hchain
      have hai : activeIndices ⟨removed.map (deleteShift uid td.order_index), db.categories⟩ uid
          = (activeIndices ⟨removed, db.categories⟩ uid).map
              (fun j => if td.order_index < j then j - 1 else j) :=
        activeIndices_map_deleteShift removed db.categories uid td.order_index
      rw [hai]
      have hlen2 : ((activeIndices ⟨removed, db.categories⟩ uid).map
          (fun j => if td.order_index < j then j - 1 else j)).length
          = (activeIndices db uid).length - 1 := by
        rw [List.length_map]
        have := hchain.length_eq
        rw [List.length_cons, rangeInt_length] at this
        omega
      rw [hlen2]
      exact hcp

/-- C1 (amended): the create and delete operations preserve invariant I1
(density of the active order_index range); the original claim fails
because completing a task performs no compaction shift, see the
counterexample. -/
theorem C1_density_create_delete :
    (∀ (db : DB) (uid : String) (body : CreateBody) (newId : String) (now : Int)
        (db2 : DB) (t : Task), denseActive db uid →
        create_task db uid body newId now = Except.ok (db2, t) → denseActive db2 uid) ∧
    (∀ (db : DB) (uid tid : String) (db2 : DB), (db.tasks.map Task.id).Nodup →
        denseActive db uid → delete_task db uid tid = Except.ok db2 → denseActive db2 uid) := by
  constructor
  · intro db uid body newId now db2 t hd h
    simp only [create_task] at h
    split at h
    · exact absurd h (by simp)
    · split at h
      · exact absurd h (by simp)
      · rw [Except.ok.injEq, Prod.mk.injEq] at h
        obtain ⟨hdb2, ht⟩ := h
        rw [← hdb2]
        exact dense_insert_top db.tasks db.categories uid _ rfl rfl rfl hd
  · intro db uid tid db2 hnd hd h
    exact dense_delete db uid tid db2 hnd hd h

/-- Witness for C1: a concrete create on an empty store and a concrete
delete of the only active task, both preserving density. -/
theorem C1_density_create_delete_witness :
    denseActive ⟨[⟨"D", "u", none, "N", none, none, "medium", false, none, 0, 5, 5⟩],
        ([] : List Category)⟩ "u" ∧
    denseActive (⟨[], []⟩ : DB) "u" :=
  ⟨C1_density_create_delete.1 ⟨[], []⟩ "u" { title := some "N", order_index := some 0 } "D" 5
      ⟨[⟨"D", "u", none, "N", none, none, "medium", false, none, 0, 5, 5⟩], []⟩
      ⟨"D", "u", none, "N", none, none, "medium", false, none, 0, 5, 5⟩ (by decide) rfl,
   C1_density_create_delete.2 ⟨[mkTask "A" "u" 0 false none], []⟩ "u" "A" ⟨[], []⟩
      (by decide) (by decide) rfl⟩

/-- Counterexample to C1 as stated: in a dense two-task store, completing
the task at active index 0 leaves the other active task at index 1, so the
active index set becomes {1}, not the dense range {0}. -/
theorem C1_counterexample :
    denseActive ⟨[mkTask "A" "u" 0 false none, mkTask "B" "u" 1 false none], []⟩ "u" ∧
    (update_task ⟨[mkTask "A" "u" 0 false none, mkTask "B" "u" 1 false none], []⟩ "u" "A"
        { is_completed := some true } 99).map (fun r => decide (denseActive r.1 "u"))
      = Except.ok false := by
  constructor
  · decide
  · rfl

/-- C2 (amended): a PATCH that sets `is_completed` from false to true
freezes the completed task's own order_index and leaves every other
task's order_index unchanged — the handler performs no compaction shift
on completion, regardless of any order_index supplied in the same
request. -/
theorem C2_complete_freezes_indices
    (db : DB) (uid tid : String) (now : Int) (ct : Task) (oi : Option Int)
    (hfind : db.tasks.find? (fun t => t.id == tid && t.user_id == uid) = some ct)
    (hact : ct.is_completed = false)
    (hoi : ∀ v, oi = some v → 0 ≤ v) :
    update_task db uid tid { is_completed := some true, order_index := oi } now =
      Except.ok ({ db with tasks := db.tasks.map (fun t =>
          if t.id == tid && t.user_id == uid then
            { t with is_completed := true, completed_at := some now, updated_at := now }
          else t) },
        { ct with is_completed := true, completed_at := some now, updated_at := now }) := by
  have hpar : updateTaskInputSchema { is_completed := some true, order_index := oi } =
      Except.ok { is_completed := some true, order_index := oi } := by
    cases oi with
    | none => rfl
    | some v =>
      have hv : ¬(v < 0) := by
        have := hoi v rfl
        omega
      simp [updateTaskInputSchema, hv]
  cases oi with
  | none =>
    simp [update_task, hpar, hfind, hact, finalizeUpdate, applySet]
  | some v =>
    simp [update_task, hpar, hfind, hact, finalizeUpdate, applySet]

/-- Witness for C2: completing the single active task of a one-task store. -/
theorem C2_complete_freezes_indices_witness :
    update_task ⟨[mkTask "A" "u" 0 false none], []⟩ "u" "A"
        { is_completed := some true } 77 =
      Except.ok ({ (⟨[mkTask "A" "u" 0 false none], []⟩ : DB) with
          tasks := [mkTask "A" "u" 0 false none].map (fun t =>
            if t.id == "A" && t.user_id == "u" then
              { t with is_completed := true, completed_at := some 77, updated_at := 77 }
            else t) },
        { mkTask "A" "u" 0 false none with
            is_completed := true, completed_at := some 77, updated_at := 77 }) :=
  C2_complete_freezes_indices ⟨[mkTask "A" "u" 0 false none], []⟩ "u" "A" 77
    (mkTask "A" "u" 0 false none) none rfl rfl (fun _ hv => Option.noConfusion hv)

/-- Counterexample to C2 as stated: completing the task at active index 0
in a two-task store does not decrement the other active task's index from
1 to 0; the store keeps indices A at 0 (frozen) and B at 1. -/
theorem C2_counterexample :
    (update_task ⟨[mkTask "A" "u" 0 false none, mkTask "B" "u" 1 false none], []⟩ "u" "A"
        { is_completed := some true } 99).map
      (fun r => r.1.tasks.map (fun t => (t.id, t.order_index)))
      ≠ Except.ok [("A", 0), ("B", 0)] ∧
    (update_task ⟨[mkTask "A" "u" 0 false none, mkTask "B" "u" 1 false none], []⟩ "u" "A"
        { is_completed := some true } 99).map
      (fun r => r.1.tasks.map (fun t => (t.id, t.order_index)))
      = Except.ok [("A", 0), ("B", 1)] := by
  have heval : (update_task ⟨[mkTask "A" "u" 0 false none, mkTask "B" "u" 1 false none], []⟩
      "u" "A" { is_completed := some true } 99).map
      (fun r => r.1.tasks.map (fun t => (t.id, t.order_index)))
      = Except.ok [("A", 0), ("B", 1)] := rfl
  refine ⟨fun hcon => ?_, heval⟩
  rw [heval] at hcon
  simp at hcon

/-- The create handler destructures only title, description, due date,
priority and category from the parsed body, so the stored rows do not
depend on the client-supplied `order_index` value. -/
lemma create_task_ignores_order_index (db : DB) (uid : String) (body : CreateBody)
    (newId : String) (now : Int) (v w : Int) (hv : 0 ≤ v) (hw : 0 ≤ w) :
    create_task db uid { body with order_index := some v } newId now
      = create_task db uid { body with order_index := some w } newId now := by
  have hv2 : decide (v < 0) = false := by
    simp
    omega
  have hw2 : decide (w < 0) = false := by
    simp
    omega
  unfold create_task createTaskInputSchema
  dsimp only
  cases htitle : body.title with
  | none => rfl
  | some t =>
    dsimp only
    rw [hv2, hw2]
    by_cases h1 : (decide (t.length < 1) || decide (255 < t.length)) = true
    · simp only [if_pos h1]
    · simp only [if_neg h1, if_neg Bool.false_ne_true]
      by_cases h2 : Option.any (fun d => Option.any (fun s => decide (5000 < s.length)) d)
          body.description = true
      · simp only [if_pos h2]
      · simp only [if_neg h2]
        by_cases h3 : Option.any (fun p => !(p == "low" || p == "medium" || p == "high"))
            body.priority = true
        · simp only [if_pos h3]
        · simp only [if_neg h3]

/-- C3: a successful create stores the new task at order_index 0 with
is_completed false and completed_at null, increments the order_index of
exactly the user's pre-existing incomplete tasks by one, and the stored
result does not depend on the client-supplied order_index value. -/
theorem C3_create_semantics (db : DB) (uid : String) (body : CreateBody) (newId : String)
    (now : Int) (db2 : DB) (t : Task)
    (h : create_task db uid body newId now = Except.ok (db2, t)) :
    t.order_index = 0 ∧ t.is_completed = false ∧ t.completed_at = none ∧
    db2.tasks = db.tasks.map (fun x =>
        if x.user_id = uid ∧ x.is_completed = false then
          { x with order_index := x.order_index + 1 } else x) ++ [t] ∧
    (∀ v w : Int, 0 ≤ v → 0 ≤ w →
        create_task db uid { body with order_index := some v } newId now
          = create_task db uid { body with order_index := some w } newId now) := by
  have hfun : ∀ x : Task, createShift uid x =
      if x.user_id = uid ∧ x.is_completed = false then
        { x with order_index := x.order_index + 1 } else x := by
    intro x
    by_cases h1 : x.user_id = uid
    · by_cases h2 : x.is_completed
      · simp [createShift, h1, h2]
      · simp [createShift, h1, h2]
    · simp [createShift, h1]
  simp only [create_task] at h
  split at h
  · exact absurd h (by simp)
  · split at h
    · exact absurd h (by simp)
    · rw [Except.ok.injEq, Prod.mk.injEq] at h
      obtain ⟨hdb2, ht⟩ := h
      refine ⟨by rw [← ht], by rw [← ht], by rw [← ht], ?_,
        fun v w hv hw => create_task_ignores_order_index db uid body newId now v w hv hw⟩
      rw [← hdb2, ← ht]
      simp only [List.map_congr_left (fun x _ => hfun x)]

/-- Witness for C3: creating a task in an empty store. -/
theorem C3_create_semantics_witness :
    (⟨"D", "u", none, "N", none, none, "medium", false, none, 0, 5, 5⟩ : Task).order_index = 0 ∧
    (⟨"D", "u", none, "N", none, none, "medium", false, none, 0, 5, 5⟩ : Task).is_completed
      = false ∧
    (⟨"D", "u", none, "N", none, none, "medium", false, none, 0, 5, 5⟩ : Task).completed_at
      = none ∧
    (⟨[⟨"D", "u", none, "N", none, none, "medium", false, none, 0, 5, 5⟩], []⟩ : DB).tasks
      = ([] : List Task).map (fun x =>
          if x.user_id = "u" ∧ x.is_completed = false then
            { x with order_index := x.order_index + 1 } else x)
        ++ [⟨"D", "u", none, "N", none, none, "medium", false, none, 0, 5, 5⟩] ∧
    create_task ⟨[], []⟩ "u"
        { ({ title := some "N", order_index := some 0 } : CreateBody) with
            order_index := some 1 } "D" 5
      = create_task ⟨[], []⟩ "u"
        { ({ title := some "N", order_index := some 0 } : CreateBody) with
            order_index := some 2 } "D" 5 := by
  have happ := C3_create_semantics ⟨[], []⟩ "u" { title := some "N", order_index := some 0 }
    "D" 5 ⟨[⟨"D", "u", none, "N", none, none, "medium", false, none, 0, 5, 5⟩], []⟩
    ⟨"D", "u", none, "N", none, none, "medium", false, none, 0, 5, 5⟩ rfl
  exact ⟨happ.1, happ.2.1, happ.2.2.1, happ.2.2.2.1,
    happ.2.2.2.2 1 2 (by decide) (by decide)⟩

/-- C4 (code-bug evidence): with one incomplete task at order_index 0 and
one completed task, the maximum active order_index is 0, yet uncompleting
the completed task assigns order_index 0 instead of max + 1 = 1 — the
JavaScript expression `(max || -1) + 1` treats the number 0 as falsy.  The
resulting state has two active tasks that share order_index 0. -/
theorem C4_uncomplete_falsy_bug :
    sqlMaxActive ⟨[mkTask "A" "u" 0 false none, mkTask "B" "u" 5 true (some 50)], []⟩ "u"
      = some 0 ∧
    (update_task ⟨[mkTask "A" "u" 0 false none, mkTask "B" "u" 5 true (some 50)], []⟩ "u" "B"
        { is_completed := some false } 100).map
      (fun r => (r.2.order_index, r.2.is_completed, r.2.completed_at))
      = Except.ok (0, false, none) ∧
    (update_task ⟨[mkTask "A" "u" 0 false none, mkTask "B" "u" 5 true (some 50)], []⟩ "u" "B"
        { is_completed := some false } 100).map
      (fun r => activeIndices r.1 "u")
      = Except.ok [0, 0] :=
  ⟨rfl, rfl, rfl⟩

/-- C5 (code-bug evidence): with a single active task at order_index 0 the
maximum active order_index is 0, so the spec's bound allows a reorder to
newIndex = 1; the handler instead computes `max || -1 = -1` — the number 0
is falsy in JavaScript — and rejects newIndex = 1 as out of bounds. -/
theorem C5_reorder_bound_falsy_bug :
    sqlMaxActive ⟨[mkTask "A" "u" 0 false none], []⟩ "u" = some 0 ∧
    update_task ⟨[mkTask "A" "u" 0 false none], []⟩ "u" "A" { order_index := some 1 } 100
      = Except.error ApiErr.outOfBounds :=
  ⟨rfl, rfl⟩

/-- A `find?` hit in a task list with unique ids is the only row carrying
that id. -/
lemma find_eq_of_mem (l : List Task) (tid uid : String) (ct : Task)
    (hnd : (l.map Task.id).Nodup)
    (hf : l.find? (fun t => t.id == tid && t.user_id == uid) = some ct) :
    ∀ t ∈ l, t.id = tid → t = ct := by
  induction l with
  | nil => simp at hf
  | cons a as ih =>
    rw [List.map_cons, List.nodup_cons] at hnd
    intro t ht htid
    by_cases hp : (a.id == tid && a.user_id == uid) = true
    · rw [List.find?_cons_of_pos as hp] at hf
      injection hf with hf
      subst hf
      rcases List.mem_cons.mp ht with rfl | hmem
      · rfl
      · exfalso
        rw [Bool.and_eq_true, beq_iff_eq] at hp
        exact hnd.1 (List.mem_map.mpr ⟨t, hmem, by rw [htid, hp.1]⟩)
    · rw [List.find?_cons_of_neg as hp] at hf
      rcases List.mem_cons.mp ht with rfl | hmem
      · exfalso
        have hfound := List.find?_some hf
        rw [Bool.and_eq_true, beq_iff_eq] at hfound
        have hctmem : ct ∈ as := List.mem_of_find?_eq_some hf
        exact hnd.1 (List.mem_map.mpr ⟨ct, hctmem, by rw [hfound.1, ← htid]⟩)
      · exact ih hnd.2 hf t hmem htid

/-- C6: an in-bounds reorder of a task that is and remains incomplete
assigns `newIndex` to the moved task directly and shifts exactly the
active tasks in the affected half-open range: +1 on [newIndex, oldIndex)
when moving up, -1 on (oldIndex, newIndex] when moving down, and nothing
when newIndex equals oldIndex. -/
theorem C6_reorder_shift (db : DB) (uid tid : String) (n : Int) (now : Int) (ct : Task)
    (hnd : (db.tasks.map Task.id).Nodup)
    (hfind : db.tasks.find? (fun t => t.id == tid && t.user_id == uid) = some ct)
    (hact : ct.is_completed = false)
    (hn0 : 0 ≤ n)
    (hbound : n ≤ jsFalsyOr (sqlMaxActive db uid) (-1) + 1) :
    update_task db uid tid { order_index := some n } now =
      Except.ok ({ db with tasks := db.tasks.map (fun t =>
          if t.id = tid ∧ t.user_id = uid then
            { t with order_index := n, updated_at := now }
          else if t.user_id = uid ∧ t.is_completed = false ∧
              ((n < ct.order_index ∧ n ≤ t.order_index ∧ t.order_index < ct.order_index) ∨
               (ct.order_index < n ∧ ct.order_index < t.order_index ∧ t.order_index ≤ n)) then
            { t with order_index :=
                t.order_index + (if n < ct.order_index then 1 else -1) }
          else t) },
        { ct with order_index := n, updated_at := now }) := by
  have hpar : updateTaskInputSchema { order_index := some n } =
      Except.ok { order_index := some n } := by
    have hnn : ¬(n < 0) := by omega
    simp [updateTaskInputSchema, hnn]
  simp only [update_task, hpar, hfind, hact]
  rw [if_neg (by simp)]
  have hcond : (n != ct.order_index && ((none : Option Bool) == some false ||
      ((none : Option Bool) == none && !false))) = (n != ct.order_index) := by
    simp
  rw [hcond]
  by_cases hne : n = ct.order_index
  · rw [if_neg (by simp [hne])]
    simp only [finalizeUpdate]
    rw [if_neg (by simp)]
    simp only [Except.ok.injEq, Prod.mk.injEq, DB.mk.injEq]
    refine ⟨⟨?_, trivial⟩, ?_⟩
    · refine List.map_congr_left fun t ht => ?_
      by_cases hid : (t.id == tid && t.user_id == uid) = true
      · have hid2 := hid
        rw [Bool.and_eq_true, beq_iff_eq, beq_iff_eq] at hid2
        have hteq : t = ct := find_eq_of_mem db.tasks tid uid ct hnd hfind t ht hid2.1
        rw [if_pos hid, if_pos ⟨hid2.1, hid2.2⟩]
        subst hteq
        simp [applySet, hne, hact]
      · rw [if_neg hid]
        rw [Bool.and_eq_true, beq_iff_eq, beq_iff_eq, not_and_or] at hid
        rw [if_neg (fun hcon => hid.elim (fun h => h hcon.1) (fun h => h hcon.2))]
        rw [if_neg (fun hcon => by rcases hcon.2.2 with h3 | h3 <;> omega)]
    · simp [applySet, hne, hact]
  · rw [if_pos (by simp [hne])]
    rw [if_neg (by simp only [decide_eq_true_eq]; omega)]
    rw [if_neg (by simp only [decide_eq_true_eq]; omega)]
    by_cases hlt : n < ct.order_index
    · rw [if_pos (by simp only [decide_eq_true_eq]; exact hlt)]
      simp only [finalizeUpdate, List.nil_append]
      rw [if_neg (by simp)]
      simp only [Except.ok.injEq, Prod.mk.injEq, DB.mk.injEq]
      refine ⟨⟨?_, trivial⟩, ?_⟩
      · rw [List.map_map]
        refine List.map_congr_left fun t ht => ?_
        simp only [Function.comp_apply]
        by_cases hid : t.id = tid <;> by_cases huser : t.user_id = uid <;>
          by_cases hcomp : t.is_completed <;>
          by_cases h1 : n ≤ t.order_index <;> by_cases h2 : t.order_index < ct.order_index <;>
          simp [applySet, hid, huser, hcomp, h1, h2, hlt,
            show ¬ct.order_index < n from by omega]
      · simp [applySet, hact]
    · rw [if_neg (by simp only [decide_eq_true_eq]; exact hlt)]
      simp only [finalizeUpdate, List.nil_append]
      rw [if_neg (by simp)]
      simp only [Except.ok.injEq, Prod.mk.injEq, DB.mk.injEq]
      refine ⟨⟨?_, trivial⟩, ?_⟩
      · rw [List.map_map]
        refine List.map_congr_left fun t ht => ?_
        simp only [Function.comp_apply]
        by_cases hid : t.id = tid <;> by_cases huser : t.user_id = uid <;>
          by_cases hcomp : t.is_completed <;>
          by_cases h1 : ct.order_index < t.order_index <;> by_cases h2 : t.order_index ≤ n <;>
          simp [applySet, hid, huser, hcomp, h1, h2, hlt, sub_eq_add_neg,
            show ct.order_index < n from by omega]
      · simp [applySet, hact]

/-- Witness for C6: moving the bottom task of a three-task list to the
top shifts exactly the two tasks above the target range. -/
theorem C6_reorder_shift_witness :
    update_task ⟨[mkTask "A" "u" 0 false none, mkTask "B" "u" 1 false none,
        mkTask "C" "u" 2 false none], []⟩ "u" "C" { order_index := some 0 } 55 =
      Except.ok ({ (⟨[mkTask "A" "u" 0 false none, mkTask "B" "u" 1 false none,
          mkTask "C" "u" 2 false none], []⟩ : DB) with
          tasks := [mkTask "A" "u" 0 false none, mkTask "B" "u" 1 false none,
              mkTask "C" "u" 2 false none].map (fun t =>
            if t.id = "C" ∧ t.user_id = "u" then
              { t with order_index := 0, updated_at := 55 }
            else if t.user_id = "u" ∧ t.is_completed = false ∧
                ((0 < (mkTask "C" "u" 2 false none).order_index ∧
                  0 ≤ t.order_index ∧
                  t.order_index < (mkTask "C" "u" 2 false none).order_index) ∨
                 ((mkTask "C" "u" 2 false none).order_index < 0 ∧
                  (mkTask "C" "u" 2 false none).order_index < t.order_index ∧
                  t.order_index ≤ 0)) then
              { t with order_index :=
                  t.order_index + (if 0 < (mkTask "C" "u" 2 false none).order_index then 1
                    else -1) }
            else t) },
        { mkTask "C" "u" 2 false none with order_index := 0, updated_at := 55 }) :=
  C6_reorder_shift ⟨[mkTask "A" "u" 0 false none, mkTask "B" "u" 1 false none,
      mkTask "C" "u" 2 false none], []⟩ "u" "C" 0 55 (mkTask "C" "u" 2 false none)
    (by decide) rfl rfl (by decide) (by decide)

/-- C7: deleting an existing task removes its row and compacts the active
indices above it exactly when the deleted task was incomplete; deleting a
completed task shifts nothing, and a miss answers NotFound and leaves the
state untouched. -/
theorem C7_delete_semantics (db : DB) (uid tid : String) :
    (db.tasks.find? (fun t => t.id == tid && t.user_id == uid) = none →
      delete_task db uid tid = Except.error ApiErr.notFound) ∧
    (∀ td, db.tasks.find? (fun t => t.id == tid && t.user_id == uid) = some td →
      delete_task db uid tid = Except.ok { db with tasks :=
        (db.tasks.filter (fun t => ¬(t.id = tid ∧ t.user_id = uid))).map (fun t =>
          if td.is_completed = false ∧ t.user_id = uid ∧ t.is_completed = false ∧
              td.order_index < t.order_index then
            { t with order_index := t.order_index - 1 } else t) }) := by
  have hfil : db.tasks.filter (fun t => !(t.id == tid && t.user_id == uid))
      = db.tasks.filter (fun t => decide (¬(t.id = tid ∧ t.user_id = uid))) := by
    refine List.filter_congr fun t _ => ?_
    by_cases h1 : t.id = tid <;> by_cases h2 : t.user_id = uid <;> simp [h1, h2]
  constructor
  · intro hf
    simp only [delete_task, hf]
  · intro td hf
    simp only [delete_task, hf]
    simp only [Except.ok.injEq, DB.mk.injEq]
    refine ⟨?_, trivial⟩
    rw [← hfil]
    by_cases hcomp : td.is_completed
    · rw [if_pos hcomp]
      simp [hcomp]
    · rw [if_neg hcomp]
      refine List.map_congr_left fun t ht => ?_
      by_cases huser : t.user_id = uid <;> by_cases hc2 : t.is_completed <;>
        by_cases ho : td.order_index < t.order_index <;>
        simp [deleteShift, huser, hc2, ho, show td.is_completed = false from by simpa using hcomp]

/-- Witness for C7: a miss on the empty store and a hit deleting the
middle task of three. -/
theorem C7_delete_semantics_witness :
    delete_task ⟨[], []⟩ "u" "A" = Except.error ApiErr.notFound ∧
    delete_task ⟨[mkTask "A" "u" 0 false none, mkTask "B" "u" 1 false none,
        mkTask "C" "u" 2 false none], []⟩ "u" "B" =
      Except.ok { (⟨[mkTask "A" "u" 0 false none, mkTask "B" "u" 1 false none,
          mkTask "C" "u" 2 false none], []⟩ : DB) with tasks :=
        ([mkTask "A" "u" 0 false none, mkTask "B" "u" 1 false none,
            mkTask "C" "u" 2 false none].filter
          (fun t => ¬(t.id = "B" ∧ t.user_id = "u"))).map (fun t =>
            if (mkTask "B" "u" 1 false none).is_completed = false ∧ t.user_id = "u" ∧
                t.is_completed = false ∧
                (mkTask "B" "u" 1 false none).order_index < t.order_index then
              { t with order_index := t.order_index - 1 } else t) } :=
  ⟨(C7_delete_semantics ⟨[], []⟩ "u" "A").1 rfl,
   (C7_delete_semantics ⟨[mkTask "A" "u" 0 false none, mkTask "B" "u" 1 false none,
       mkTask "C" "u" 2 false none], []⟩ "u" "B").2 (mkTask "B" "u" 1 false none) rfl⟩

/-- Invariant I3 for a task list: `completed_at` is non-null iff
`is_completed` is true. -/
def completedAtConsistent (l : List Task) : Prop :=
  ∀ t ∈ l, t.is_completed = true ↔ t.completed_at ≠ none

instance (l : List Task) : Decidable (completedAtConsistent l) :=
  List.decidableBAll _ l

lemma consistent_map (l : List Task) (f : Task → Task)
    (hf : ∀ t, (f t).is_completed = t.is_completed ∧ (f t).completed_at = t.completed_at)
    (hl : completedAtConsistent l) : completedAtConsistent (l.map f) := by
  intro t' ht'
  rcases List.mem_map.mp ht' with ⟨s, hs, rfl⟩
  rw [(hf s).1, (hf s).2]
  exact hl s hs

lemma finalize_consistent (db : DB) (uid tid : String) (ct : Task) (sc : SetClause)
    (tasks : List Task) (now : Int) (db2 : DB) (t2 : Task)
    (h : finalizeUpdate db uid tid ct sc tasks now = Except.ok (db2, t2))
    (htasks : completedAtConsistent tasks)
    (hsc : (sc.is_completed = none ∧ sc.completed_at = none) ∨
           (sc.is_completed = some true ∧ (∃ v, sc.completed_at = some (some v))) ∨
           (sc.is_completed = some false ∧ sc.completed_at = some none) ∨
           (sc.is_completed = some true ∧ sc.completed_at = none ∧
             ∀ t ∈ tasks, t.id = tid → t.is_completed = true)) :
    completedAtConsistent db2.tasks := by
  simp only [finalizeUpdate] at h
  split at h
  · exact absurd h (by simp)
  · rw [Except.ok.injEq, Prod.mk.injEq] at h
    obtain ⟨hdb2, _⟩ := h
    rw [← hdb2]
    intro t' ht'
    rcases List.mem_map.mp ht' with ⟨s, hs, rfl⟩
    have hsOK := htasks s hs
    by_cases hmatch : (s.id == tid && s.user_id == uid) = true
    · rw [if_pos hmatch]
      rcases hsc with ⟨h1, h2⟩ | ⟨h1, v, h2⟩ | ⟨h1, h2⟩ | ⟨h1, h2, h3⟩
      · simpa [applySet, h1, h2] using hsOK
      · simp [applySet, h1, h2]
      · simp [applySet, h1, h2]
      · rw [Bool.and_eq_true, beq_iff_eq, beq_iff_eq] at hmatch
        have hcompl := h3 s hs hmatch.1
        simp [applySet, h1, h2, hcompl, hsOK.mp hcompl]
    · rw [if_neg hmatch]
      exact hsOK

lemma update_preserves_consistent (db : DB) (uid tid : String) (body : UpdateBody) (now : Int)
    (db2 : DB) (t2 : Task)
    (hnd : (db.tasks.map Task.id).Nodup)
    (hc : completedAtConsistent db.tasks)
    (h : update_task db uid tid body now = Except.ok (db2, t2)) :
    completedAtConsistent db2.tasks := by
  simp only [update_task] at h
  split at h
  · exact absurd h (by simp)
  next uf hparse =>
    split at h
    · exact absurd h (by simp)
    next ct hfind =>
      split at h
      · exact absurd h (by simp)
      · rcases hic : uf.is_completed with _ | newC
        · -- no is_completed in the request
          simp only [hic] at h
          rcases hio : uf.order_index with _ | n
          · simp only [hio] at h
            exact finalize_consistent _ _ _ _ _ _ _ _ _ h hc (Or.inl ⟨rfl, rfl⟩)
          · simp only [hio] at h
            split at h
            · split at h
              · exact absurd h (by simp)
              · split at h
                · exact absurd h (by simp)
                · split at h
                  · exact finalize_consistent _ _ _ _ _ _ _ _ _ h
                      (consistent_map _ _ (fun t => by split <;> simp) hc)
                      (Or.inl ⟨rfl, rfl⟩)
                  · exact finalize_consistent _ _ _ _ _ _ _ _ _ h
                      (consistent_map _ _ (fun t => by split <;> simp) hc)
                      (Or.inl ⟨rfl, rfl⟩)
            · exact finalize_consistent _ _ _ _ _ _ _ _ _ h hc (Or.inl ⟨rfl, rfl⟩)
        · -- is_completed supplied
          simp only [hic] at h
          cases hold : ct.is_completed <;> cases newC <;>
            simp only [hold, Bool.not_true, Bool.not_false, Bool.and_true, Bool.and_false,
              Bool.true_and, Bool.false_and, if_true, if_false,
              if_neg Bool.false_ne_true, if_pos rfl] at h
          -- old = false, new = false : completed_at set to NULL, possible reorder
          · rcases hio : uf.order_index with _ | n
            · simp only [hio] at h
              exact finalize_consistent _ _ _ _ _ _ _ _ _ h hc
                (Or.inr (Or.inr (Or.inl ⟨rfl, rfl⟩)))
            · by_cases hne : n = ct.order_index
              · simp [hio, hne] at h
                exact finalize_consistent _ _ _ _ _ _ _ _ _ h hc
                  (Or.inr (Or.inr (Or.inl ⟨rfl, rfl⟩)))
              · simp [hio, hne] at h
                split at h
                · exact absurd h (by simp)
                · split at h
                  · exact absurd h (by simp)
                  · by_cases hlt : n < ct.order_index
                    · rw [if_pos hlt] at h
                      exact finalize_consistent _ _ _ _ _ _ _ _ _ h
                        (consistent_map _ _ (fun t => by split <;> simp) hc)
                        (Or.inr (Or.inr (Or.inl ⟨rfl, rfl⟩)))
                    · rw [if_neg hlt] at h
                      exact finalize_consistent _ _ _ _ _ _ _ _ _ h
                        (consistent_map _ _ (fun t => by split <;> simp) hc)
                        (Or.inr (Or.inr (Or.inl ⟨rfl, rfl⟩)))
          -- old = false, new = true : completion, completed_at set to now
          · rcases hio : uf.order_index with _ | n
            · simp only [hio] at h
              exact finalize_consistent _ _ _ _ _ _ _ _ _ h hc
                (Or.inr (Or.inl ⟨rfl, now, rfl⟩))
            · simp [hio] at h
              exact finalize_consistent _ _ _ _ _ _ _ _ _ h hc
                (Or.inr (Or.inl ⟨rfl, now, rfl⟩))
          -- old = true, new = false : uncomplete, completed_at NULL, append index
          · rcases hio : uf.order_index with _ | n
            · simp only [hio] at h
              exact finalize_consistent _ _ _ _ _ _ _ _ _ h hc
                (Or.inr (Or.inr (Or.inl ⟨rfl, rfl⟩)))
            · by_cases hne : n = ct.order_index
              · simp [hio, hne] at h
                exact finalize_consistent _ _ _ _ _ _ _ _ _ h hc
                  (Or.inr (Or.inr (Or.inl ⟨rfl, rfl⟩)))
              · simp [hio, hne] at h
                split at h
                · exact absurd h (by simp)
                · split at h
                  · exact absurd h (by simp)
                  · by_cases hlt : n < ct.order_index
                    · rw [if_pos hlt] at h
                      exact finalize_consistent _ _ _ _ _ _ _ _ _ h
                        (consistent_map _ _ (fun t => by split <;> simp) hc)
                        (Or.inr (Or.inr (Or.inl ⟨rfl, rfl⟩)))
                    · rw [if_neg hlt] at h
                      exact finalize_consistent _ _ _ _ _ _ _ _ _ h
                        (consistent_map _ _ (fun t => by split <;> simp) hc)
                        (Or.inr (Or.inr (Or.inl ⟨rfl, rfl⟩)))
          -- old = true, new = true : completed_at untouched
          · rcases hio : uf.order_index with _ | n
            · simp only [hio] at h
              exact finalize_consistent _ _ _ _ _ _ _ _ _ h hc
                (Or.inr (Or.inr (Or.inr ⟨rfl, rfl, fun t ht htid => by
                  rw [find_eq_of_mem db.tasks tid uid ct hnd hfind t ht htid]
                  exact hold⟩)))
            · simp [hio] at h
              exact finalize_consistent _ _ _ _ _ _ _ _ _ h hc
                (Or.inr (Or.inr (Or.inr ⟨rfl, rfl, fun t ht htid => by
                  rw [find_eq_of_mem db.tasks tid uid ct hnd hfind t ht htid]
                  exact hold⟩)))

/-- C8: every handler preserves invariant I3 — `completed_at` is non-null
exactly when `is_completed` is true — and a newly created task starts
incomplete with a null `completed_at`. -/
theorem C8_completed_at_iff :
    (∀ (db : DB) (uid : String) (body : CreateBody) (newId : String) (now : Int)
        (db2 : DB) (t : Task), completedAtConsistent db.tasks →
        create_task db uid body newId now = Except.ok (db2, t) →
        completedAtConsistent db2.tasks ∧ t.is_completed = false ∧ t.completed_at = none) ∧
    (∀ (db : DB) (uid tid : String) (body : UpdateBody) (now : Int) (db2 : DB) (t2 : Task),
        (db.tasks.map Task.id).Nodup → completedAtConsistent db.tasks →
        update_task db uid tid body now = Except.ok (db2, t2) →
        completedAtConsistent db2.tasks) ∧
    (∀ (db : DB) (uid tid : String) (db2 : DB), completedAtConsistent db.tasks →
        delete_task db uid tid = Except.ok db2 → completedAtConsistent db2.tasks) := by
  refine ⟨?_, ?_, ?_⟩
  · intro db uid body newId now db2 t hc h
    simp only [create_task] at h
    split at h
    · exact absurd h (by simp)
    · split at h
      · exact absurd h (by simp)
      · rw [Except.ok.injEq, Prod.mk.injEq] at h
        obtain ⟨hdb2, ht⟩ := h
        refine ⟨?_, by rw [← ht], by rw [← ht]⟩
        rw [← hdb2]
        intro t' ht'
        rcases List.mem_append.mp ht' with hin | hin
        · rcases List.mem_map.mp hin with ⟨s, hs, rfl⟩
          have hfields : (createShift uid s).is_completed = s.is_completed ∧
              (createShift uid s).completed_at = s.completed_at := by
            unfold createShift
            split <;> simp
          rw [hfields.1, hfields.2]
          exact hc s hs
        · rw [List.mem_singleton.mp hin]
          simp
  · intro db uid tid body now db2 t2 hnd hc h
    exact update_preserves_consistent db uid tid body now db2 t2 hnd hc h
  · intro db uid tid db2 hc h
    simp only [delete_task] at h
    split at h
    · exact absurd h (by simp)
    next td hf =>
      rw [Except.ok.injEq] at h
      rw [← h]
      have hfil : completedAtConsistent
          (db.tasks.filter (fun t => !(t.id == tid && t.user_id == uid))) :=
        fun t ht => hc t (List.mem_filter.mp ht).1
      by_cases hcomp : td.is_completed
      · rw [if_pos hcomp]
        exact hfil
      · rw [if_neg hcomp]
        refine consistent_map _ _ (fun t => ?_) hfil
        unfold deleteShift
        split <;> simp

/-- Witness for C8: the invariant holds after a concrete create on the
empty store, after completing the single task of a one-task store, and
after deleting the single task of a one-task store. -/
theorem C8_completed_at_iff_witness :
    completedAtConsistent [⟨"D", "u", none, "N", none, none, "medium", false, none, 0, 5, 5⟩] ∧
    completedAtConsistent [{ mkTask "A" "u" 0 false none with
      is_completed := true, completed_at := some 9, updated_at := 9 }] ∧
    completedAtConsistent ([] : List Task) := by
  have h1 := (C8_completed_at_iff.1 ⟨[], []⟩ "u" { title := some "N", order_index := some 0 }
    "D" 5 ⟨[⟨"D", "u", none, "N", none, none, "medium", false, none, 0, 5, 5⟩], []⟩
    ⟨"D", "u", none, "N", none, none, "medium", false, none, 0, 5, 5⟩
    (fun t ht => absurd ht (List.not_mem_nil t)) rfl).1
  have h2 := C8_completed_at_iff.2.1 ⟨[mkTask "A" "u" 0 false none], []⟩ "u" "A"
    { is_completed := some true } 9
    ⟨[{ mkTask "A" "u" 0 false none with
        is_completed := true, completed_at := some 9, updated_at := 9 }], []⟩
    { mkTask "A" "u" 0 false none with
        is_completed := true, completed_at := some 9, updated_at := 9 }
    (by decide) (by decide) rfl
  have h3 := C8_completed_at_iff.2.2 ⟨[mkTask "A" "u" 0 false none], []⟩ "u" "A" ⟨[], []⟩
    (by decide) rfl
  exact ⟨h1, h2, h3⟩

/-- C9: the create schema requires `order_index` as a nonnegative integer,
so a body omitting it (or supplying a negative one) is rejected with a
validation error and no task is created — even though the handler never
uses the supplied value. -/
theorem C9_create_requires_order_index (db : DB) (uid : String) (body : CreateBody)
    (newId : String) (now : Int) :
    (body.order_index = none →
      create_task db uid body newId now = Except.error ApiErr.validationFailed) ∧
    (∀ v : Int, body.order_index = some v → v < 0 →
      create_task db uid body newId now = Except.error ApiErr.validationFailed) := by
  constructor
  · intro hoi
    cases htitle : body.title <;>
      simp [create_task, createTaskInputSchema, hoi, htitle]
  · intro v hv hneg
    cases htitle : body.title with
    | none => simp [create_task, createTaskInputSchema, hv, htitle]
    | some t =>
      simp only [create_task, createTaskInputSchema, hv, htitle]
      split
      · rfl
      next inp heq =>
        exfalso
        split at heq
        · exact absurd heq (by simp)
        · rw [if_pos (by simp [hneg])] at heq
          exact absurd heq (by simp)

/-- Witness for C9: a body without order_index and a body with a negative
order_index are both rejected. -/
theorem C9_create_requires_order_index_witness :
    create_task ⟨[], []⟩ "u" { title := some "T" } "X" 0
      = Except.error ApiErr.validationFailed ∧
    create_task ⟨[], []⟩ "u" { title := some "T", order_index := some (-1) } "X" 0
      = Except.error ApiErr.validationFailed :=
  ⟨(C9_create_requires_order_index ⟨[], []⟩ "u" { title := some "T" } "X" 0).1 rfl,
   (C9_create_requires_order_index ⟨[], []⟩ "u"
     { title := some "T", order_index := some (-1) } "X" 0).2 (-1) rfl (by decide)⟩

lemma updateTaskInputSchema_ok (b uf : UpdateBody)
    (h : updateTaskInputSchema b = Except.ok uf) : uf = b := by
  unfold updateTaskInputSchema at h
  split at h
  · exact absurd h (by simp)
  · split at h
    · exact absurd h (by simp)
    · split at h
      · exact absurd h (by simp)
      · split at h
        · exact absurd h (by simp)
        · injection h with h
          exact h.symm

lemma finalize_preserves_completed_at (db : DB) (uid tid : String) (ct : Task)
    (sc : SetClause) (tasks : List Task) (now : Int) (db2 : DB) (t2 : Task)
    (h : finalizeUpdate db uid tid ct sc tasks now = Except.ok (db2, t2))
    (hsc : sc.completed_at = none)
    (htasks : tasks.map (fun t => (t.id, t.completed_at))
      = db.tasks.map (fun t => (t.id, t.completed_at))) :
    db2.tasks.map (fun t => (t.id, t.completed_at))
      = db.tasks.map (fun t => (t.id, t.completed_at)) := by
  simp only [finalizeUpdate] at h
  split at h
  · exact absurd h (by simp)
  · rw [Except.ok.injEq, Prod.mk.injEq] at h
    obtain ⟨hdb2, _⟩ := h
    rw [← hdb2]
    show (tasks.map _).map _ = _
    rw [List.map_map, ← htasks]
    refine List.map_congr_left fun t ht => ?_
    by_cases hmatch : (t.id == tid && t.user_id == uid) = true
    · rw [Bool.and_eq_true, beq_iff_eq, beq_iff_eq] at hmatch
      simp [applySet, hsc, hmatch.1, hmatch.2]
    · rw [Bool.and_eq_true, beq_iff_eq, beq_iff_eq] at hmatch
      simp [hmatch]

lemma shift_preserves_completed_at (l : List Task) (f : Task → Task)
    (hf : ∀ t, (f t).id = t.id ∧ (f t).completed_at = t.completed_at) :
    (l.map f).map (fun t => (t.id, t.completed_at))
      = l.map (fun t => (t.id, t.completed_at)) := by
  rw [List.map_map]
  exact List.map_congr_left fun t _ => by rw [Function.comp_apply, (hf t).1, (hf t).2]

/-- C10: the PATCH handler never writes a client-supplied `completed_at`:
the stored result is independent of the body's completed_at field, and
when `is_completed` is absent every row's completed_at is unchanged. -/
theorem C10_completed_at_ignored :
    (∀ (db : DB) (uid tid : String) (body : UpdateBody) (now : Int)
        (c c' : Option (Option Int)),
      update_task db uid tid { body with completed_at := c } now
        = update_task db uid tid { body with completed_at := c' } now) ∧
    (∀ (db : DB) (uid tid : String) (body : UpdateBody) (now : Int) (db2 : DB) (t2 : Task),
      body.is_completed = none →
      update_task db uid tid body now = Except.ok (db2, t2) →
      db2.tasks.map (fun t => (t.id, t.completed_at))
        = db.tasks.map (fun t => (t.id, t.completed_at))) := by
  constructor
  · intro db uid tid body now c c'
    simp only [update_task, updateTaskInputSchema]
    dsimp only
    by_cases hA : Option.any (fun t => decide (t.length < 1) || decide (255 < t.length))
        body.title = true
    · simp only [if_pos hA]
    · simp only [if_neg hA]
      by_cases hB : Option.any (fun d => Option.any (fun s => decide (5000 < s.length)) d)
          body.description = true
      · simp only [if_pos hB]
      · simp only [if_neg hB]
        by_cases hC : Option.any (fun p => !(p == "low" || p == "medium" || p == "high"))
            body.priority = true
        · simp only [if_pos hC]
        · simp only [if_neg hC]
          by_cases hD : Option.any (fun i => decide (i < 0)) body.order_index = true
          · simp only [if_pos hD]
          · simp only [if_neg hD]
  · intro db uid tid body now db2 t2 hic h
    simp only [update_task] at h
    split at h
    · exact absurd h (by simp)
    next uf hparse =>
      have huf := updateTaskInputSchema_ok body uf hparse
      subst huf
      split at h
      · exact absurd h (by simp)
      next ct hfind =>
        split at h
        · exact absurd h (by simp)
        · simp only [hic] at h
          rcases hio : uf.order_index with _ | n
          · simp only [hio] at h
            exact finalize_preserves_completed_at _ _ _ _ _ _ _ _ _ h rfl rfl
          · simp [hio] at h
            by_cases hne : n = ct.order_index
            · simp [hne] at h
              exact finalize_preserves_completed_at _ _ _ _ _ _ _ _ _ h rfl rfl
            · simp [hne] at h
              rcases hact : ct.is_completed with _ | _
              · simp [hact] at h
                split at h
                · exact absurd h (by simp)
                · split at h
                  · exact absurd h (by simp)
                  · by_cases hlt : n < ct.order_index
                    · rw [if_pos hlt] at h
                      exact finalize_preserves_completed_at _ _ _ _ _ _ _ _ _ h rfl
                        (shift_preserves_completed_at _ _ (fun t => by split <;> simp))
                    · rw [if_neg hlt] at h
                      exact finalize_preserves_completed_at _ _ _ _ _ _ _ _ _ h rfl
                        (shift_preserves_completed_at _ _ (fun t => by split <;> simp))
              · simp [hact] at h
                exact finalize_preserves_completed_at _ _ _ _ _ _ _ _ _ h rfl rfl

/-- Witness for C10: two requests differing only in completed_at give the
same result, and an update without is_completed leaves completed_at of
every row unchanged. -/
theorem C10_completed_at_ignored_witness :
    update_task ⟨[mkTask "A" "u" 0 false none], []⟩ "u" "A"
        { ({ title := some "T" } : UpdateBody) with completed_at := some (some 5) } 9
      = update_task ⟨[mkTask "A" "u" 0 false none], []⟩ "u" "A"
        { ({ title := some "T" } : UpdateBody) with completed_at := none } 9 ∧
    ((⟨[{ mkTask "A" "u" 0 false none with title := "T", updated_at := 9 }], []⟩ : DB)).tasks.map
        (fun t => (t.id, t.completed_at))
      = ((⟨[mkTask "A" "u" 0 false none], []⟩ : DB)).tasks.map
        (fun t => (t.id, t.completed_at)) :=
  ⟨C10_completed_at_ignored.1 ⟨[mkTask "A" "u" 0 false none], []⟩ "u" "A"
     { title := some "T" } 9 (some (some 5)) none,
   C10_completed_at_ignored.2 ⟨[mkTask "A" "u" 0 false none], []⟩ "u" "A"
     { title := some "T" } 9
     ⟨[{ mkTask "A" "u" 0 false none with title := "T", updated_at := 9 }], []⟩
     { mkTask "A" "u" 0 false none with title := "T", updated_at := 9 } rfl rfl⟩

end TodoApp
